import Mathlib

/-!
Shallow embedding of the ny-feoko clip-extraction core: the chunk streamer
(`shared/ny_feoko_shared/audio_io.py`), VAD-segment grouping
(`services/clip-extraction/src/clip_extraction/domain/segment_grouping.py`),
the pipeline orchestrator (`clip_extraction/pipeline.py`) and the clip
writer (`clip_extraction/infrastructure/writer.py`).

Times, durations and scores are rationals (the Python code uses floats);
audio buffers are lists of samples.  Every definition is translated from
the source, except the ones whose doc comment says otherwise.
-/

attribute [local semireducible] Rat.mul Rat.add Rat.sub Rat.inv

/-- `AudioSegment` from `ny_feoko_shared/models.py`: a VAD-detected speech
region in absolute file time (seconds). -/
structure AudioSegment where
  start_sec : ℚ
  end_sec : ℚ
deriving DecidableEq, Inhabited

/-- `AudioSegment.duration` property: `end_sec - start_sec`. -/
def AudioSegment.duration (s : AudioSegment) : ℚ :=
  s.end_sec - s.start_sec

/-- `ClipCandidate` from `ny_feoko_shared/models.py`: grouped VAD segments
with the sliced audio and the source file path. -/
structure ClipCandidate where
  segments : List AudioSegment
  audio : List ℚ
  source_file : String
deriving DecidableEq

/-- `ClipCandidate.start_sec` property: first segment's start. -/
def ClipCandidate.start_sec (c : ClipCandidate) : ℚ :=
  c.segments.headI.start_sec

/-- `ClipCandidate.end_sec` property: last segment's end. -/
def ClipCandidate.end_sec (c : ClipCandidate) : ℚ :=
  (c.segments.getLastD default).end_sec

/-- `ClipCandidate.duration` property: `end_sec - start_sec`. -/
def ClipCandidate.duration (c : ClipCandidate) : ℚ :=
  c.end_sec - c.start_sec

/-- Python `int()` applied to a float: truncation toward zero. -/
def pyInt (q : ℚ) : ℤ :=
  if q < 0 then ⌈q⌉ else ⌊q⌋

/-- Python list slicing `a[s:e]` with integer indices (negative indices
count from the end, both ends are clamped into the list). -/
def pySlice (a : List ℚ) (s e : ℤ) : List ℚ :=
  let n : ℤ := a.length
  let s2 := (if s < 0 then max 0 (n + s) else min s n).toNat
  let e2 := (if e < 0 then max 0 (n + e) else min e n).toNat
  (a.take e2).drop s2

/-- Span of a (nonempty) working group: last segment's end minus first
segment's start; the `duration` computed at lines 30-31 and 43 of
`segment_grouping.py`. -/
def groupSpan (g : List AudioSegment) : ℚ :=
  (g.getLastD default).end_sec - g.headI.start_sec

/-- The scan loop of `group_segments` (`segment_grouping.py` lines 29-39):
`group` is the current working group; a segment joins it when the gap to the
group's last segment is at most `max_gap` and the joined span is at most
`max_duration`, otherwise the group is closed and a new group starts with
the segment; the final group is closed unconditionally.  Returns the closed
groups in order. -/
def groupLoop (max_duration max_gap : ℚ) :
    List AudioSegment → List AudioSegment → List (List AudioSegment)
  | [], group => [group]
  | seg :: rest, group =>
    if seg.start_sec - (group.getLastD default).end_sec ≤ max_gap ∧
        seg.end_sec - group.headI.start_sec ≤ max_duration then
      groupLoop max_duration max_gap rest (group ++ [seg])
    else
      group :: groupLoop max_duration max_gap rest [seg]

/-- Audio slice for a closed group (`segment_grouping.py` lines 47-50):
second-to-sample conversion with Python `int` truncation, end index clamped
to the buffer length. -/
def sliceClip (audio : List ℚ) (sample_rate : ℤ) (audio_start_sec : ℚ)
    (group : List AudioSegment) : List ℚ :=
  let start_sample := pyInt ((group.headI.start_sec - audio_start_sec) * (sample_rate : ℚ))
  let end_sample :=
    min (pyInt (((group.getLastD default).end_sec - audio_start_sec) * (sample_rate : ℚ)))
      (audio.length : ℤ)
  pySlice audio start_sample end_sample

/-- `group_segments` (`segment_grouping.py` lines 12-58): merge adjacent VAD
segments into clip candidates.  All parameters are positional; the source's
defaults are `min_duration = 5`, `max_duration = 30`, `max_gap = 3/2`. -/
def group_segments (segments : List AudioSegment) (audio : List ℚ)
    (sample_rate : ℤ) (source_file : String) (audio_start_sec : ℚ)
    (min_duration max_duration max_gap : ℚ) : List ClipCandidate :=
  match segments with
  | [] => []
  | s0 :: rest =>
    (groupLoop max_duration max_gap rest [s0]).filterMap (fun group =>
      if groupSpan group < min_duration then none
      else
        some { segments := group,
               audio := sliceClip audio sample_rate audio_start_sec group,
               source_file := source_file })

/-- Decidable check that a segment list is time-ordered and non-overlapping:
each segment ends no later than the next one starts. -/
def sortedSegs : List AudioSegment → Bool
  | [] => true
  | [_] => true
  | a :: b :: rest => decide (a.end_sec ≤ b.start_sec) && sortedSegs (b :: rest)

/-- One step of the Segment Grouper as §4.2 of the spec words it, for the
refinement claim: the state is (closed groups, working group); a segment
joins the working group if the gap to the group's last segment is at most
`max_gap` and the joined span at most `max_duration`, otherwise the working
group is closed and a new one starts with the segment. -/
def specStep (max_duration max_gap : ℚ)
    (st : List (List AudioSegment) × List AudioSegment) (seg : AudioSegment) :
    List (List AudioSegment) × List AudioSegment :=
  if seg.start_sec - (st.2.getLastD default).end_sec ≤ max_gap ∧
      seg.end_sec - st.2.headI.start_sec ≤ max_duration then
    (st.1, st.2 ++ [seg])
  else
    (st.1 ++ [st.2], [seg])

/-- The Segment Grouper's grouping policy written from the spec's words
(§4.2), to be compared with `group_segments`: scan left to right from a
working group holding the first segment, close the final group
unconditionally, keep only closed groups whose span is at least
`min_duration`. -/
def spec_grouping (min_duration max_duration max_gap : ℚ) :
    List AudioSegment → List (List AudioSegment)
  | [] => []
  | s :: rest =>
    let st := rest.foldl (specStep max_duration max_gap) ([], [s])
    (st.1 ++ [st.2]).filter (fun g => decide (min_duration ≤ groupSpan g))

/-- The pair one iteration of `stream_chunks` yields (`audio_io.py` lines
62-67): `(read_start, read_duration)`.  Idealized, `load_audio_segment`
returns `read_duration * sample_rate` samples, so `read_duration` is
`len(samples) / sample_rate` for the yielded chunk.  `chunk_duration_sec`
and `overlap_sec` are `int` in the source. -/
def chunkAt (total_sec : ℚ) (chunk_duration_sec overlap_sec : ℤ) (pos : ℚ) :
    ℚ × ℚ :=
  let read_start : ℚ := if 0 < pos then max 0 (pos - (overlap_sec : ℚ)) else 0
  let read_duration : ℚ :=
    min ((chunk_duration_sec : ℚ) + (if 0 < pos then (overlap_sec : ℚ) else 0))
      (total_sec - read_start)
  (read_start, read_duration)

/-- The `while pos < total_sec` loop of `stream_chunks`
(`audio_io.py` lines 59-69), with an explicit fuel bound on the number of
iterations. -/
def chunkLoop (total_sec : ℚ) (chunk_duration_sec overlap_sec : ℤ) :
    ℚ → ℕ → List (ℚ × ℚ)
  | _, 0 => []
  | pos, fuel + 1 =>
    if pos < total_sec then
      chunkAt total_sec chunk_duration_sec overlap_sec pos ::
        chunkLoop total_sec chunk_duration_sec overlap_sec
          (pos + (chunk_duration_sec : ℚ)) fuel
    else []

/-- `stream_chunks` (`audio_io.py` lines 47-69) after a successful duration
probe: the chunk list the generator yields.  The fuel `⌈total_sec⌉.toNat`
bounds the iteration count whenever `chunk_duration_sec ≥ 1`; since the
parameter is a positive `int` in every claim, the fuel never runs out (for
`chunk_duration_sec ≤ 0` the source loop would not terminate at all). -/
def stream_chunks (total_sec : ℚ) (chunk_duration_sec overlap_sec : ℤ) :
    List (ℚ × ℚ) :=
  chunkLoop total_sec chunk_duration_sec overlap_sec 0 ⌈total_sec⌉.toNat

/-- Observable events of the `stream_chunks` generator: a yielded chunk, or
the error raised when `ffprobe` cannot determine the duration. -/
inductive StreamEvent
  | chunk (chunk_start : ℚ) (duration : ℚ)
  | ffprobeError
deriving DecidableEq

/-- `stream_chunks` as a generator trace: `probe_duration` (line 58) runs
before the loop, on the first iteration of the generator; `probe = none`
models a missing or corrupt file, whose probe error is raised then. -/
def streamTrace (probe : Option ℚ) (chunk_duration_sec overlap_sec : ℤ) :
    List StreamEvent :=
  match probe with
  | none => [StreamEvent.ffprobeError]
  | some total_sec =>
    (stream_chunks total_sec chunk_duration_sec overlap_sec).map
      (fun p => StreamEvent.chunk p.1 p.2)

/-- Result of `TranscriberPort.transcribe` (`domain/ports.py`): draft text,
average log-probability (absent for some adapters) and no-speech
probability.  The `language` key is never read by the pipeline. -/
structure TranscribeResult where
  text : String
  avg_logprob : Option ℚ
  no_speech_prob : ℚ
deriving DecidableEq

/-- `ClipResult` from `ny_feoko_shared/models.py`. -/
structure ClipResult where
  candidate : ClipCandidate
  speech_score : ℚ
  music_score : ℚ
  accepted : Bool
  whisper_text : Option String
  whisper_avg_logprob : Option ℚ
  whisper_no_speech_prob : Option ℚ
  whisper_rejected : Bool
  clip_path : Option String
deriving DecidableEq

/-- One row of `metadata.csv` (`writer.py` lines 31-43); an absent
log-probability is serialized as the empty cell, modeled by `none`. -/
structure MetadataRow where
  file_name : String
  source_file : String
  start_sec : ℚ
  end_sec : ℚ
  duration_sec : ℚ
  speech_score : ℚ
  music_score : ℚ
  transcription : String
  whisper_avg_logprob : Option ℚ
  whisper_no_speech_prob : Option ℚ
  whisper_rejected : Bool
deriving DecidableEq

/-- Python `round(q, digits)`. -/
def roundTo (digits : ℕ) (q : ℚ) : ℚ :=
  mkRat (round (q * ((10 ^ digits : ℕ) : ℚ))) (10 ^ digits)

/-- Python `f"{n:05d}"`. -/
def padZero5 (n : ℕ) : String :=
  let s := toString n
  String.mk (List.replicate (5 - s.length) '0') ++ s

/-- State of a `ClipWriter` (`writer.py` lines 14-21): clips directory,
sample rate, sequence counter, accumulated metadata rows, and the WAV
files written so far, each as (path, samples). -/
structure WriterState where
  clips_dir : String
  sample_rate : ℤ
  counter : ℕ
  rows : List MetadataRow
  files : List (String × List ℚ)
deriving DecidableEq

/-- `ClipWriter.__init__` (`writer.py` lines 15-21). -/
def ClipWriter.init (output_dir : String) (sample_rate : ℤ) : WriterState :=
  { clips_dir := output_dir ++ "/clips"
  , sample_rate := sample_rate
  , counter := 0
  , rows := []
  , files := [] }

/-- The metadata row `write_clip` appends (`writer.py` lines 31-43);
`counter` is the just-incremented sequence number. -/
def rowOf (counter : ℕ) (result : ClipResult) : MetadataRow :=
  { file_name := "clips/clip_" ++ padZero5 counter ++ ".wav"
  , source_file := result.candidate.source_file
  , start_sec := roundTo 2 result.candidate.start_sec
  , end_sec := roundTo 2 result.candidate.end_sec
  , duration_sec := roundTo 2 result.candidate.duration
  , speech_score := roundTo 3 result.speech_score
  , music_score := roundTo 3 result.music_score
  , transcription := result.whisper_text.getD ""
  , whisper_avg_logprob := result.whisper_avg_logprob.map (roundTo 3)
  , whisper_no_speech_prob := result.whisper_no_speech_prob.map (roundTo 3)
  , whisper_rejected := result.whisper_rejected }

/-- `ClipWriter.write_clip` (`writer.py` lines 23-44): increments the
counter, writes `clips/clip_XXXXX.wav` (modeled by appending
`(path, samples)` to `files`), sets `result.clip_path` (the mutation of the
argument, returned here as the middle component) and appends the metadata
row; returns the clip path. -/
def write_clip (w : WriterState) (result : ClipResult) :
    WriterState × ClipResult × String :=
  let counter := w.counter + 1
  let clip_name := "clip_" ++ padZero5 counter ++ ".wav"
  let clip_path := w.clips_dir ++ "/" ++ clip_name
  ({ w with counter := counter
          , files := w.files ++ [(clip_path, result.candidate.audio)]
          , rows := w.rows ++ [rowOf counter result] },
   { result with clip_path := some clip_path },
   clip_path)

/-- `ClipWriter.flush_metadata` (`writer.py` lines 46-50): a no-op returning
without creating any file when no rows were ever written (`none`), otherwise
the rows persisted to `metadata.csv`. -/
def flush_metadata (w : WriterState) : Option (List MetadataRow) :=
  if w.rows = [] then none else some w.rows

/-- The acceptance policy of `run_pipeline` (`pipeline.py` lines 141-144):
`speech_score > speech_threshold and speech_score > music_score * 0.8`. -/
def acceptDecision (speech_threshold speech_score music_score : ℚ) : Bool :=
  decide (speech_score > speech_threshold) &&
    decide (speech_score > music_score * mkRat 4 5)

/-- Run state of `run_pipeline`, threaded through its loops: writer state,
the `total_clips` / `total_accepted` / `whisper_rejected_count` counters,
plus two instrumentation logs — every audio buffer the transcriber was
invoked on, and every `ClipResult` handed to `write_clip`, in order. -/
structure PipelineState where
  writer : WriterState
  total_clips : ℕ
  total_accepted : ℕ
  whisper_rejected_count : ℕ
  transcribed : List (List ℚ)
  handed : List ClipResult
deriving DecidableEq

/-- Body of the per-candidate loop of `run_pipeline` (`pipeline.py` lines
135-180): classify, decide acceptance, and for accepted candidates
transcribe, build the `ClipResult` and hand it to the writer; rejected
candidates only bump `total_clips`. -/
def processCandidate (classify : List ℚ → ℤ → ℚ × ℚ)
    (transcribe : List ℚ → ℤ → TranscribeResult)
    (speech_threshold : ℚ) (sample_rate : ℤ)
    (st : PipelineState) (candidate : ClipCandidate) : PipelineState :=
  let scores := classify candidate.audio sample_rate
  let accepted := acceptDecision speech_threshold scores.1 scores.2
  if accepted then
    let rd := transcribe candidate.audio sample_rate
    let whisper_rejected := decide (rd.no_speech_prob > mkRat 3 5)
    let clip_result : ClipResult :=
      { candidate := candidate
      , speech_score := scores.1
      , music_score := scores.2
      , accepted := true
      , whisper_text := some rd.text
      , whisper_avg_logprob := rd.avg_logprob
      , whisper_no_speech_prob := some rd.no_speech_prob
      , whisper_rejected := whisper_rejected
      , clip_path := none }
    { writer := (write_clip st.writer clip_result).1
    , total_clips := st.total_clips + 1
    , total_accepted := st.total_accepted + 1
    , whisper_rejected_count :=
        st.whisper_rejected_count + (if whisper_rejected then 1 else 0)
    , transcribed := st.transcribed ++ [candidate.audio]
    , handed := st.handed ++ [clip_result] }
  else
    { st with total_clips := st.total_clips + 1 }

/-- The clip candidates `run_pipeline` derives from one chunk
(`pipeline.py` lines 121-131): detect, translate the segment times by
`chunk_start`, group with the source defaults (5, 30, 3/2). -/
def chunkCandidates (vad : List ℚ → ℤ → List AudioSegment)
    (sample_rate : ℤ) (source : String) (chunk : ℚ × List ℚ) :
    List ClipCandidate :=
  let segments := (vad chunk.2 sample_rate).map
    (fun s => { start_sec := s.start_sec + chunk.1, end_sec := s.end_sec + chunk.1 })
  group_segments segments chunk.2 sample_rate source chunk.1 5 30 (mkRat 3 2)

/-- Body of the per-chunk loop of `run_pipeline` (`pipeline.py` lines
111-180). -/
def processChunk (vad : List ℚ → ℤ → List AudioSegment)
    (classify : List ℚ → ℤ → ℚ × ℚ)
    (transcribe : List ℚ → ℤ → TranscribeResult)
    (speech_threshold : ℚ) (sample_rate : ℤ) (source : String)
    (st : PipelineState) (chunk : ℚ × List ℚ) : PipelineState :=
  (chunkCandidates vad sample_rate source chunk).foldl
    (processCandidate classify transcribe speech_threshold sample_rate) st

/-- What a finished `run_pipeline` call leaves behind. -/
structure RunOutput where
  out_dir : String
  rows : List MetadataRow
  metadataFile : Option (List MetadataRow)
  total_clips : ℕ
  total_accepted : ℕ
  transcribed : List (List ℚ)
  handed : List ClipResult
  files : List (String × List ℚ)
deriving DecidableEq

/-- `run_pipeline` (`pipeline.py` lines 68-196).  The wall-clock
`timestamp` and the chunk list the streamer yields are explicit
parameters; the external capabilities are deterministic functions; the
writer is freshly created with counter 0; console and progress output are
not modeled, and `Path.stem` of the input file is modeled by the input
path string itself (no claim depends on it). -/
def run_pipeline (timestamp run_label input_file output_dir : String)
    (chunks : List (ℚ × List ℚ))
    (vad : List ℚ → ℤ → List AudioSegment)
    (classify : List ℚ → ℤ → ℚ × ℚ)
    (transcribe : List ℚ → ℤ → TranscribeResult)
    (speech_threshold : ℚ) (sample_rate : ℤ) : RunOutput :=
  let label := if run_label = "" then input_file else run_label
  let out := output_dir ++ "/" ++ timestamp ++ "_" ++ label
  let st0 : PipelineState :=
    { writer := ClipWriter.init out sample_rate
    , total_clips := 0
    , total_accepted := 0
    , whisper_rejected_count := 0
    , transcribed := []
    , handed := [] }
  let final := chunks.foldl
    (processChunk vad classify transcribe speech_threshold sample_rate input_file) st0
  { out_dir := out
  , rows := final.writer.rows
  , metadataFile := flush_metadata final.writer
  , total_clips := final.total_clips
  , total_accepted := final.total_accepted
  , transcribed := final.transcribed
  , handed := final.handed
  , files := final.writer.files }

-- Concrete sanity checks of the streamer: a 650s file with the default
-- 300s chunks and 2s overlap.
example : stream_chunks 650 300 2 = [(0, 300), (298, 302), (598, 52)] := by decide

-- Concrete scenarios from the spec, as sanity checks of the embedding.
example :
    (group_segments [⟨0, 3⟩, ⟨mkRat 7 2, mkRat 13 2⟩] [] 16000 "f" 0 5 30 (mkRat 3 2)).map
      ClipCandidate.duration = [mkRat 13 2] := by decide

example :
    (group_segments [⟨0, 3⟩, ⟨8, 11⟩] [] 16000 "f" 0 5 30 (mkRat 3 2)).map
      ClipCandidate.duration = [] := by decide

example :
    (group_segments [⟨0, 6⟩, ⟨9, 15⟩] [] 16000 "f" 0 5 30 (mkRat 3 2)).map
      ClipCandidate.duration = [6, 6] := by decide

example :
    group_segments [] [] 16000 "f" 0 5 30 (mkRat 3 2) = [] := by decide

/-! ## Helper lemmas about the grouping scan -/

/-- The span of a group after appending a segment is exactly the
`group_duration` checked by the scan. -/
theorem groupSpan_concat (group : List AudioSegment) (seg : AudioSegment)
    (h : group ≠ []) :
    groupSpan (group ++ [seg]) = seg.end_sec - group.headI.start_sec := by
  obtain ⟨g0, gs, rfl⟩ := List.exists_cons_of_ne_nil h
  rw [groupSpan, List.getLastD_concat]
  simp

/-- Concatenating the closed groups of the scan gives back the input:
the scan neither reorders, drops nor splits segments. -/
theorem groupLoop_flatten (max_duration max_gap : ℚ)
    (rest : List AudioSegment) :
    ∀ group : List AudioSegment,
      (groupLoop max_duration max_gap rest group).flatten = group ++ rest := by
  induction rest with
  | nil => intro group; simp [groupLoop]
  | cons seg rest ih =>
    intro group
    rw [groupLoop]
    split
    · rw [ih (group ++ [seg])]; simp
    · simp [List.flatten, ih [seg]]

/-- Every group the scan closes has span at most `max_duration`, provided
the working group it starts from does and every remaining segment alone
fits in `max_duration`. -/
theorem groupLoop_span_le (max_duration max_gap : ℚ) :
    ∀ (rest group : List AudioSegment), group ≠ [] →
      (∀ s ∈ rest, s.duration ≤ max_duration) →
      groupSpan group ≤ max_duration →
      ∀ g ∈ groupLoop max_duration max_gap rest group,
        groupSpan g ≤ max_duration := by
  intro rest
  induction rest with
  | nil =>
    intro group hne hall hsp g hg
    rw [groupLoop] at hg
    simp only [List.mem_singleton] at hg
    exact hg ▸ hsp
  | cons seg rest ih =>
    intro group hne hall hsp g hg
    rw [groupLoop] at hg
    by_cases hc : seg.start_sec - (group.getLastD default).end_sec ≤ max_gap ∧
        seg.end_sec - group.headI.start_sec ≤ max_duration
    · rw [if_pos hc] at hg
      refine ih (group ++ [seg]) (by simp)
        (fun s hs => hall s (List.mem_cons_of_mem _ hs)) ?_ g hg
      rw [groupSpan_concat group seg hne]
      exact hc.2
    · rw [if_neg hc] at hg
      rcases List.mem_cons.mp hg with rfl | hg
      · exact hsp
      · refine ih [seg] (by simp)
          (fun s hs => hall s (List.mem_cons_of_mem _ hs)) ?_ g hg
        have := hall seg (List.mem_cons_self seg rest)
        simpa [groupSpan, AudioSegment.duration] using this

/-- Mapping each candidate back to its segment group turns the
build-and-filter pass of `group_segments` into a plain filter on the
closed groups. -/
theorem map_segments_filterMap (audio : List ℚ) (sample_rate : ℤ)
    (source_file : String) (audio_start_sec min_duration : ℚ)
    (groups : List (List AudioSegment)) :
    (groups.filterMap (fun group =>
        if groupSpan group < min_duration then none
        else
          some { segments := group
               , audio := sliceClip audio sample_rate audio_start_sec group
               , source_file := source_file : ClipCandidate })).map
      ClipCandidate.segments
      = groups.filter (fun g => decide (min_duration ≤ groupSpan g)) := by
  induction groups with
  | nil => rfl
  | cons g gs ih =>
    rw [List.filterMap_cons, List.filter_cons]
    by_cases h : groupSpan g < min_duration
    · rw [if_pos h]
      have : (decide (min_duration ≤ groupSpan g)) = false := by
        simpa using not_le.mpr h
      rw [this]
      simpa using ih
    · rw [if_neg h]
      have : (decide (min_duration ≤ groupSpan g)) = true := by
        simpa using not_lt.mp h
      rw [this]
      simpa using ih

/-- The duration of a candidate is the span of its segment group. -/
theorem ClipCandidate.duration_eq_groupSpan (c : ClipCandidate) :
    c.duration = groupSpan c.segments := rfl

/-! ## Claims about the Segment Grouper -/

/-- C1 (amended): for a time-ordered, non-overlapping input in which each
single segment already fits in `max_duration`, every candidate produced by
`group_segments` has duration at least `min_duration` and at most
`max_duration`.  (Without the extra hypothesis the upper bound fails: a
single over-long segment becomes an over-long candidate, see the
counterexample.)  The lower bound needs no extra hypothesis. -/
theorem group_segments_duration_bounds
    (segments : List AudioSegment) (audio : List ℚ) (sample_rate : ℤ)
    (source_file : String)
    (audio_start_sec min_duration max_duration max_gap : ℚ)
    (hsorted : sortedSegs segments = true)
    (hseg : ∀ s ∈ segments, s.duration ≤ max_duration) :
    ∀ c ∈ group_segments segments audio sample_rate source_file audio_start_sec
        min_duration max_duration max_gap,
      min_duration ≤ c.duration ∧ c.duration ≤ max_duration := by
  intro c hc
  cases segments with
  | nil => simp [group_segments] at hc
  | cons s0 rest =>
    simp only [group_segments] at hc
    obtain ⟨group, hgmem, hsome⟩ := List.mem_filterMap.mp hc
    by_cases h : groupSpan group < min_duration
    · rw [if_pos h] at hsome
      exact absurd hsome (by simp)
    · rw [if_neg h, Option.some.injEq] at hsome
      subst hsome
      constructor
      · rw [ClipCandidate.duration_eq_groupSpan]
        exact not_lt.mp h
      · rw [ClipCandidate.duration_eq_groupSpan]
        refine groupLoop_span_le max_duration max_gap rest [s0] (by simp)
          (fun s hs => hseg s (List.mem_cons_of_mem _ hs)) ?_ group hgmem
        have h0 := hseg s0 (List.mem_cons_self s0 rest)
        simpa [groupSpan, AudioSegment.duration] using h0

/-- C1 witness: spec scenario A (segments `[0,3]` and `[3.5,6.5]`, default
policy) instantiates the amended bounds theorem. -/
theorem group_segments_duration_bounds_witness :
    (group_segments [⟨0, 3⟩, ⟨mkRat 7 2, mkRat 13 2⟩] [] 16000 "f" 0
        5 30 (mkRat 3 2)).map ClipCandidate.duration = [mkRat 13 2] ∧
      ∀ c ∈ group_segments [⟨0, 3⟩, ⟨mkRat 7 2, mkRat 13 2⟩] [] 16000 "f" 0
          5 30 (mkRat 3 2),
        (5 : ℚ) ≤ c.duration ∧ c.duration ≤ 30 :=
  ⟨by decide,
    group_segments_duration_bounds [⟨0, 3⟩, ⟨mkRat 7 2, mkRat 13 2⟩] [] 16000 "f" 0
      5 30 (mkRat 3 2) (by decide) (by decide)⟩

/-- C1 counterexample: the single (time-ordered, non-overlapping) segment
`[0,40]` under the default policy yields a candidate of duration 40,
exceeding `max_duration = 30`: the scan bounds the span only when joining,
never when a group is born from one segment. -/
theorem group_segments_duration_bound_cex :
    sortedSegs [⟨0, 40⟩] = true ∧
      ¬ ∀ c ∈ group_segments [⟨0, 40⟩] [] 16000 "f" 0 5 30 (mkRat 3 2),
          c.duration ≤ 30 := by
  constructor
  · decide
  · decide

/-- C7: the segments of the candidates `group_segments` returns are a
selection of the blocks of a partition of the input into contiguous runs:
`gs.flatten = segments` says the runs are contiguous, cover the input in
order and split no segment, and the `Sublist` says each candidate is one
whole run and distinct candidates are distinct runs in left-to-right
order. -/
theorem group_segments_contiguous_subruns
    (segments : List AudioSegment) (audio : List ℚ) (sample_rate : ℤ)
    (source_file : String)
    (audio_start_sec min_duration max_duration max_gap : ℚ) :
    ∃ gs : List (List AudioSegment),
      gs.flatten = segments ∧
        ((group_segments segments audio sample_rate source_file audio_start_sec
            min_duration max_duration max_gap).map
          ClipCandidate.segments).Sublist gs := by
  cases segments with
  | nil => exact ⟨[], by simp, by simp [group_segments]⟩
  | cons s0 rest =>
    refine ⟨groupLoop max_duration max_gap rest [s0],
      by simpa using groupLoop_flatten max_duration max_gap rest [s0], ?_⟩
    simp only [group_segments]
    rw [map_segments_filterMap]
    exact List.filter_sublist _

/-- The spec-side fold and the source-side scan close the same groups, in
the same order. -/
theorem specStep_foldl (max_duration max_gap : ℚ) (rest : List AudioSegment) :
    ∀ (acc : List (List AudioSegment)) (group : List AudioSegment),
      (rest.foldl (specStep max_duration max_gap) (acc, group)).1 ++
          [(rest.foldl (specStep max_duration max_gap) (acc, group)).2] =
        acc ++ groupLoop max_duration max_gap rest group := by
  induction rest with
  | nil =>
    intro acc group
    simp [groupLoop]
  | cons seg rest ih =>
    intro acc group
    rw [List.foldl_cons, groupLoop]
    by_cases h : seg.start_sec - (group.getLastD default).end_sec ≤ max_gap ∧
        seg.end_sec - group.headI.start_sec ≤ max_duration
    · rw [if_pos h]
      have hstep : specStep max_duration max_gap (acc, group) seg =
          (acc, group ++ [seg]) := by
        simp only [specStep]
        rw [if_pos h]
      rw [hstep, ih]
    · rw [if_neg h]
      have hstep : specStep max_duration max_gap (acc, group) seg =
          (acc ++ [group], [seg]) := by
        simp only [specStep]
        rw [if_neg h]
      rw [hstep, ih]
      simp

/-- C2: the grouping policy of `group_segments` is exactly the one the spec
describes — scan left to right, join iff the gap is within `max_gap` and
the joined span within `max_duration`, close otherwise, close the final
group unconditionally, keep exactly the closed groups with span at least
`min_duration`.  Stated as: the segment groups of the returned candidates
equal the groups of the spec-worded `spec_grouping`, for every input. -/
theorem group_segments_matches_spec_grouping
    (segments : List AudioSegment) (audio : List ℚ) (sample_rate : ℤ)
    (source_file : String)
    (audio_start_sec min_duration max_duration max_gap : ℚ) :
    (group_segments segments audio sample_rate source_file audio_start_sec
        min_duration max_duration max_gap).map ClipCandidate.segments =
      spec_grouping min_duration max_duration max_gap segments := by
  cases segments with
  | nil => rfl
  | cons s0 rest =>
    simp only [group_segments, spec_grouping]
    rw [map_segments_filterMap]
    rw [specStep_foldl max_duration max_gap rest [] [s0]]
    simp

/-! ## Claims about the chunk streamer's failure mode -/

/-- C8: when the duration probe fails (missing or corrupt file), the
generator's trace is the probe error alone, raised on the first iteration:
no chunk is ever yielded before (or after) it. -/
theorem stream_probe_fail_fast (probe : Option ℚ)
    (chunk_duration_sec overlap_sec : ℤ) (h : probe = none) :
    streamTrace probe chunk_duration_sec overlap_sec =
        [StreamEvent.ffprobeError] ∧
      ∀ s d, StreamEvent.chunk s d ∉
        streamTrace probe chunk_duration_sec overlap_sec := by
  subst h
  refine ⟨rfl, ?_⟩
  intro s d hmem
  simp [streamTrace] at hmem

/-- C8 witness: the fail-fast theorem at the default parameters. -/
theorem stream_probe_fail_fast_witness :
    streamTrace none 300 2 = [StreamEvent.ffprobeError] ∧
      ∀ s d, StreamEvent.chunk s d ∉ streamTrace none 300 2 :=
  stream_probe_fail_fast none 300 2 rfl

/-! ## Coverage of the chunk streamer -/

/-- Each iteration's chunk starts at or before `pos`, at or after 0, and
reaches at least to `min (pos + chunk_duration) total_sec`. -/
theorem chunkAt_spec (total_sec : ℚ) (C O : ℤ) (pos : ℚ)
    (hpos : 0 ≤ pos) (hO : 0 ≤ O) :
    (chunkAt total_sec C O pos).1 ≤ pos ∧
      min (pos + (C : ℚ)) total_sec ≤
        (chunkAt total_sec C O pos).1 + (chunkAt total_sec C O pos).2 := by
  have hOq : (0 : ℚ) ≤ (O : ℚ) := by exact_mod_cast hO
  by_cases hp : 0 < pos
  · simp only [chunkAt, if_pos hp]
    constructor
    · exact max_le (le_of_lt hp) (by linarith)
    · have hrs : pos - (O : ℚ) ≤ max 0 (pos - (O : ℚ)) := le_max_right _ _
      have hsum : max 0 (pos - (O : ℚ)) +
            min ((C : ℚ) + (O : ℚ)) (total_sec - max 0 (pos - (O : ℚ))) =
          min (max 0 (pos - (O : ℚ)) + ((C : ℚ) + (O : ℚ))) total_sec := by
        rw [← min_add_add_left]
        congr 1
        ring
      rw [hsum]
      exact min_le_min (by linarith) le_rfl
  · have hp0 : pos = 0 := le_antisymm (not_lt.mp hp) hpos
    subst hp0
    simp only [chunkAt, lt_irrefl, if_neg (lt_irrefl (0 : ℚ))]
    constructor
    · simp
    · simp

/-- Every chunk the loop yields stays inside the file: nonnegative start,
end at most `total_sec`. -/
theorem chunkLoop_bounds (total_sec : ℚ) (C O : ℤ) :
    ∀ (fuel : ℕ) (pos : ℚ),
      ∀ p ∈ chunkLoop total_sec C O pos fuel,
        0 ≤ p.1 ∧ p.1 + p.2 ≤ total_sec := by
  intro fuel
  induction fuel with
  | zero =>
    intro pos p hp
    simp [chunkLoop] at hp
  | succ fuel ih =>
    intro pos p hp
    rw [chunkLoop] at hp
    by_cases h : pos < total_sec
    · rw [if_pos h] at hp
      rcases List.mem_cons.mp hp with rfl | hp
      · constructor
        · simp only [chunkAt]
          split
          · exact le_max_left 0 _
          · exact le_refl 0
        · simp only [chunkAt]
          have hmin := min_le_right
            ((C : ℚ) + (if 0 < pos then (O : ℚ) else 0))
            (total_sec - (if 0 < pos then max 0 (pos - (O : ℚ)) else 0))
          linarith
      · exact ih _ p hp
    · rw [if_neg h] at hp
      simp at hp

/-- With enough fuel, the chunks the loop yields from `pos` cover every
time `t` with `pos ≤ t < total_sec`. -/
theorem chunkLoop_covers (total_sec : ℚ) (C O : ℤ) (hC : 0 < C) (hO : 0 ≤ O) :
    ∀ (fuel : ℕ) (pos : ℚ), 0 ≤ pos →
      total_sec - pos ≤ (fuel : ℚ) * (C : ℚ) →
      ∀ t : ℚ, pos ≤ t → t < total_sec →
        ∃ p ∈ chunkLoop total_sec C O pos fuel, p.1 ≤ t ∧ t < p.1 + p.2 := by
  have hC1 : (1 : ℚ) ≤ (C : ℚ) := by exact_mod_cast (by omega : (1 : ℤ) ≤ C)
  intro fuel
  induction fuel with
  | zero =>
    intro pos hpos hfuel t ht htT
    exfalso
    push_cast at hfuel
    linarith
  | succ fuel ih =>
    intro pos hpos hfuel t ht htT
    have hposT : pos < total_sec := lt_of_le_of_lt ht htT
    rw [chunkLoop, if_pos hposT]
    obtain ⟨h1, h2⟩ := chunkAt_spec total_sec C O pos hpos hO
    by_cases hcase : t < pos + (C : ℚ)
    · refine ⟨chunkAt total_sec C O pos, List.mem_cons_self _ _,
        le_trans h1 ht, ?_⟩
      have hmin : t < min (pos + (C : ℚ)) total_sec := lt_min hcase htT
      linarith
    · push_neg at hcase
      push_cast at hfuel
      obtain ⟨p, hp, hp1, hp2⟩ := ih (pos + (C : ℚ)) (by linarith)
        (by linarith) t hcase htT
      exact ⟨p, List.mem_cons_of_mem _ hp, hp1, hp2⟩

/-- Once the loop position has passed one whole chunk, every further chunk
starts strictly after 0, provided the overlap is smaller than the chunk
duration. -/
theorem chunkLoop_tail_pos (total_sec : ℚ) (C O : ℤ) (hOC : O < C) (hO : 0 ≤ O) :
    ∀ (fuel : ℕ) (pos : ℚ), (C : ℚ) ≤ pos →
      ∀ p ∈ chunkLoop total_sec C O pos fuel, 0 < p.1 := by
  have hOq : (O : ℚ) < (C : ℚ) := by exact_mod_cast hOC
  have hO0 : (0 : ℚ) ≤ (O : ℚ) := by exact_mod_cast hO
  intro fuel
  induction fuel with
  | zero =>
    intro pos hpos p hp
    simp [chunkLoop] at hp
  | succ fuel ih =>
    intro pos hpos p hp
    rw [chunkLoop] at hp
    by_cases h : pos < total_sec
    · rw [if_pos h] at hp
      have hposPos : 0 < pos := lt_of_lt_of_le (lt_of_le_of_lt hO0 hOq) hpos
      rcases List.mem_cons.mp hp with rfl | hp
      · simp only [chunkAt, if_pos hposPos]
        exact lt_max_of_lt_right (by linarith)
      · exact ih (pos + (C : ℚ)) (by linarith) p hp
    · rw [if_neg h] at hp
      simp at hp

/-- C3 (amended): for a file of positive duration, positive chunk size and
nonnegative overlap smaller than the chunk size, the yielded chunks cover
`[0, total_sec)` with no gap, no chunk extends past the end of the file,
and the chunk list starts with a chunk at 0 while every later chunk starts
strictly after 0 (the extra hypothesis `overlap < chunk size` is forced by
the counterexample: with overlap ≥ chunk size later chunks also start
at 0). -/
theorem stream_chunks_coverage (total_sec : ℚ) (C O : ℤ)
    (hD : 0 < total_sec) (hC : 0 < C) (hO : 0 ≤ O) (hOC : O < C) :
    (∀ t : ℚ, 0 ≤ t → t < total_sec →
        ∃ p ∈ stream_chunks total_sec C O, p.1 ≤ t ∧ t < p.1 + p.2) ∧
      (∀ p ∈ stream_chunks total_sec C O, 0 ≤ p.1 ∧ p.1 + p.2 ≤ total_sec) ∧
      (∃ c0 rest, stream_chunks total_sec C O = c0 :: rest ∧ c0.1 = 0 ∧
          ∀ p ∈ rest, 0 < p.1) := by
  have hC1 : (1 : ℚ) ≤ (C : ℚ) := by exact_mod_cast (by omega : (1 : ℤ) ≤ C)
  have hceil : (0 : ℤ) ≤ ⌈total_sec⌉ := Int.ceil_nonneg hD.le
  refine ⟨?_, ?_, ?_⟩
  · intro t ht htT
    refine chunkLoop_covers total_sec C O hC hO _ 0 le_rfl ?_ t ht htT
    have h2 := Int.le_ceil total_sec
    have h3 : ((⌈total_sec⌉ : ℤ) : ℚ) = ((⌈total_sec⌉.toNat : ℕ) : ℚ) := by
      norm_cast
      omega
    have hn : (0 : ℚ) ≤ ((⌈total_sec⌉.toNat : ℕ) : ℚ) := Nat.cast_nonneg _
    have hmul : ((⌈total_sec⌉.toNat : ℕ) : ℚ) * 1 ≤
        ((⌈total_sec⌉.toNat : ℕ) : ℚ) * (C : ℚ) :=
      mul_le_mul_of_nonneg_left hC1 hn
    rw [h3] at h2
    linarith
  · exact chunkLoop_bounds total_sec C O _ 0
  · have hfuel1 : 1 ≤ ⌈total_sec⌉.toNat := by
      have hpos : (0 : ℤ) < ⌈total_sec⌉ := Int.ceil_pos.mpr hD
      omega
    obtain ⟨f, hf⟩ : ∃ f, ⌈total_sec⌉.toNat = f + 1 :=
      ⟨⌈total_sec⌉.toNat - 1, by omega⟩
    refine ⟨chunkAt total_sec C O 0,
      chunkLoop total_sec C O ((0 : ℚ) + (C : ℚ)) f, ?_, ?_, ?_⟩
    · rw [stream_chunks, hf, chunkLoop, if_pos hD]
    · simp [chunkAt]
    · intro p hp
      exact chunkLoop_tail_pos total_sec C O hOC hO f ((0 : ℚ) + (C : ℚ))
        (by linarith) p hp

/-- C3 witness: the coverage theorem at a 650s file with the default 300s
chunks and 2s overlap. -/
theorem stream_chunks_coverage_witness :
    (∀ t : ℚ, 0 ≤ t → t < 650 →
        ∃ p ∈ stream_chunks 650 300 2, p.1 ≤ t ∧ t < p.1 + p.2) ∧
      (∀ p ∈ stream_chunks 650 300 2, 0 ≤ p.1 ∧ p.1 + p.2 ≤ 650) ∧
      (∃ c0 rest, stream_chunks 650 300 2 = c0 :: rest ∧ c0.1 = 0 ∧
          ∀ p ∈ rest, 0 < p.1) :=
  stream_chunks_coverage 650 300 2 (by decide) (by decide) (by decide) (by decide)

/-- C3 counterexample: with chunk size 1 and overlap 2 (overlap ≥ chunk
size) on a 3s file, the second and third yielded chunks also have
`chunk_start = 0`, falsifying "only the first yielded chunk has
`chunk_start == 0`". -/
theorem stream_chunks_zero_start_cex :
    stream_chunks 3 1 2 = [(0, 1), (0, 3), (0, 3)] ∧
      ¬ ∀ p ∈ (stream_chunks 3 1 2).tail, p.1 ≠ 0 := by
  constructor
  · decide
  · decide

/-! ## Claims about the pipeline orchestrator and the writer -/

/-- C4: a candidate is accepted for transcription iff
`speech_score > speech_threshold` and `speech_score > music_score * 0.8`
(`acceptDecision` is the policy `processCandidate` applies to every
candidate of every run); in particular spec scenario E:
`speech = music = 0.5` under the default threshold `0.35` is accepted. -/
theorem acceptance_policy_iff :
    (∀ speech_threshold speech_score music_score : ℚ,
        acceptDecision speech_threshold speech_score music_score = true ↔
          (speech_score > speech_threshold ∧
            speech_score > music_score * mkRat 4 5)) ∧
      acceptDecision (mkRat 7 20) (mkRat 1 2) (mkRat 1 2) = true := by
  constructor
  · intro t s m
    simp [acceptDecision]
  · decide

/-- C10: `write_clip` mutates its `ClipResult` argument by setting
`clip_path` to the path of the WAV file it just wrote and returns that
same path, leaving every other field of the result (and its candidate)
unchanged. -/
theorem write_clip_frame (w : WriterState) (r : ClipResult) :
    (write_clip w r).2.1.clip_path = some (write_clip w r).2.2 ∧
      (write_clip w r).1.files =
        w.files ++ [((write_clip w r).2.2, r.candidate.audio)] ∧
      (write_clip w r).2.1.candidate = r.candidate ∧
      (write_clip w r).2.1.speech_score = r.speech_score ∧
      (write_clip w r).2.1.music_score = r.music_score ∧
      (write_clip w r).2.1.accepted = r.accepted ∧
      (write_clip w r).2.1.whisper_text = r.whisper_text ∧
      (write_clip w r).2.1.whisper_avg_logprob = r.whisper_avg_logprob ∧
      (write_clip w r).2.1.whisper_no_speech_prob = r.whisper_no_speech_prob ∧
      (write_clip w r).2.1.whisper_rejected = r.whisper_rejected :=
  ⟨rfl, rfl, rfl, rfl, rfl, rfl, rfl, rfl, rfl, rfl⟩

/-- The `ClipResult` `run_pipeline` builds for an accepted candidate
(`pipeline.py` lines 169-178), named for the lemmas below. -/
def mkClipResult (classify : List ℚ → ℤ → ℚ × ℚ)
    (transcribe : List ℚ → ℤ → TranscribeResult) (sample_rate : ℤ)
    (c : ClipCandidate) : ClipResult :=
  { candidate := c
  , speech_score := (classify c.audio sample_rate).1
  , music_score := (classify c.audio sample_rate).2
  , accepted := true
  , whisper_text := some (transcribe c.audio sample_rate).text
  , whisper_avg_logprob := (transcribe c.audio sample_rate).avg_logprob
  , whisper_no_speech_prob := some (transcribe c.audio sample_rate).no_speech_prob
  , whisper_rejected :=
      decide ((transcribe c.audio sample_rate).no_speech_prob > mkRat 3 5)
  , clip_path := none }

/-- `processCandidate` on a candidate that passes classification. -/
theorem processCandidate_accepted_eq (classify : List ℚ → ℤ → ℚ × ℚ)
    (transcribe : List ℚ → ℤ → TranscribeResult)
    (thr : ℚ) (sr : ℤ) (st : PipelineState) (c : ClipCandidate)
    (h : acceptDecision thr (classify c.audio sr).1 (classify c.audio sr).2
      = true) :
    processCandidate classify transcribe thr sr st c =
      { writer := (write_clip st.writer (mkClipResult classify transcribe sr c)).1
      , total_clips := st.total_clips + 1
      , total_accepted := st.total_accepted + 1
      , whisper_rejected_count := st.whisper_rejected_count +
          (if decide ((transcribe c.audio sr).no_speech_prob > mkRat 3 5)
            then 1 else 0)
      , transcribed := st.transcribed ++ [c.audio]
      , handed := st.handed ++ [mkClipResult classify transcribe sr c] } := by
  simp only [processCandidate, mkClipResult]
  rw [if_pos h]

/-- `processCandidate` on a candidate rejected at classification: only the
`total_clips` counter moves. -/
theorem processCandidate_rejected_eq (classify : List ℚ → ℤ → ℚ × ℚ)
    (transcribe : List ℚ → ℤ → TranscribeResult)
    (thr : ℚ) (sr : ℤ) (st : PipelineState) (c : ClipCandidate)
    (h : acceptDecision thr (classify c.audio sr).1 (classify c.audio sr).2
      = false) :
    processCandidate classify transcribe thr sr st c =
      { st with total_clips := st.total_clips + 1 } := by
  simp only [processCandidate]
  rw [h]
  simp

/-- The candidates of a run that pass the classification policy, in
file-time order. -/
def acceptedCandidates (chunks : List (ℚ × List ℚ))
    (vad : List ℚ → ℤ → List AudioSegment)
    (classify : List ℚ → ℤ → ℚ × ℚ)
    (speech_threshold : ℚ) (sample_rate : ℤ) (source : String) :
    List ClipCandidate :=
  ((chunks.map (chunkCandidates vad sample_rate source)).flatten).filter
    (fun c => acceptDecision speech_threshold
      (classify c.audio sample_rate).1 (classify c.audio sample_rate).2)

/-- Effect of the per-candidate fold on the instrumentation logs: the
results handed to the writer are exactly the accepted candidates, in
order, and the transcriber ran exactly on their audio. -/
theorem processCandidate_foldl_log (classify : List ℚ → ℤ → ℚ × ℚ)
    (transcribe : List ℚ → ℤ → TranscribeResult)
    (thr : ℚ) (sr : ℤ) (cands : List ClipCandidate) :
    ∀ st : PipelineState,
      ((cands.foldl (processCandidate classify transcribe thr sr) st).handed.map
          ClipResult.candidate =
        st.handed.map ClipResult.candidate ++
          cands.filter (fun c => acceptDecision thr
            (classify c.audio sr).1 (classify c.audio sr).2)) ∧
      ((cands.foldl (processCandidate classify transcribe thr sr) st).transcribed =
        st.transcribed ++
          (cands.filter (fun c => acceptDecision thr
            (classify c.audio sr).1 (classify c.audio sr).2)).map
            ClipCandidate.audio) := by
  induction cands with
  | nil => intro st; simp
  | cons c cs ih =>
    intro st
    rw [List.foldl_cons, List.filter_cons]
    by_cases h : acceptDecision thr (classify c.audio sr).1
        (classify c.audio sr).2 = true
    · rw [if_pos h, processCandidate_accepted_eq classify transcribe thr sr st c h]
      obtain ⟨ih1, ih2⟩ := ih
        { writer := (write_clip st.writer (mkClipResult classify transcribe sr c)).1
        , total_clips := st.total_clips + 1
        , total_accepted := st.total_accepted + 1
        , whisper_rejected_count := st.whisper_rejected_count +
            (if decide ((transcribe c.audio sr).no_speech_prob > mkRat 3 5)
              then 1 else 0)
        , transcribed := st.transcribed ++ [c.audio]
        , handed := st.handed ++ [mkClipResult classify transcribe sr c] }
      constructor
      · rw [ih1]
        simp [mkClipResult]
      · rw [ih2]
        simp
    · have h2 : acceptDecision thr (classify c.audio sr).1
          (classify c.audio sr).2 = false := by simpa using h
      rw [if_neg (by simp [h2]),
        processCandidate_rejected_eq classify transcribe thr sr st c h2]
      obtain ⟨ih1, ih2⟩ := ih { st with total_clips := st.total_clips + 1 }
      exact ⟨ih1, ih2⟩

/-- Effect of the per-chunk fold on the instrumentation logs. -/
theorem processChunk_foldl_log (vad : List ℚ → ℤ → List AudioSegment)
    (classify : List ℚ → ℤ → ℚ × ℚ)
    (transcribe : List ℚ → ℤ → TranscribeResult)
    (thr : ℚ) (sr : ℤ) (source : String) (chunks : List (ℚ × List ℚ)) :
    ∀ st : PipelineState,
      ((chunks.foldl (processChunk vad classify transcribe thr sr source)
          st).handed.map ClipResult.candidate =
        st.handed.map ClipResult.candidate ++
          acceptedCandidates chunks vad classify thr sr source) ∧
      ((chunks.foldl (processChunk vad classify transcribe thr sr source)
          st).transcribed =
        st.transcribed ++
          (acceptedCandidates chunks vad classify thr sr source).map
            ClipCandidate.audio) := by
  induction chunks with
  | nil => intro st; simp [acceptedCandidates]
  | cons ch chs ih =>
    intro st
    rw [List.foldl_cons]
    obtain ⟨ih1, ih2⟩ := ih (processChunk vad classify transcribe thr sr source st ch)
    obtain ⟨hc1, hc2⟩ := processCandidate_foldl_log classify transcribe thr sr
      (chunkCandidates vad sr source ch) st
    constructor
    · rw [ih1]
      simp only [processChunk]
      rw [hc1]
      simp [acceptedCandidates, List.filter_append, List.append_assoc]
    · rw [ih2]
      simp only [processChunk]
      rw [hc2]
      simp [acceptedCandidates, List.filter_append, List.append_assoc]

/-- C6: in every run, the results handed to the Clip Writer are exactly
the candidates accepted at classification (regardless of the
transcript-rejected flag), in order, and the transcriber is invoked on
exactly those candidates' audio: a candidate rejected at classification is
never transcribed and never written. -/
theorem pipeline_written_iff_accepted
    (timestamp run_label input_file output_dir : String)
    (chunks : List (ℚ × List ℚ))
    (vad : List ℚ → ℤ → List AudioSegment)
    (classify : List ℚ → ℤ → ℚ × ℚ)
    (transcribe : List ℚ → ℤ → TranscribeResult)
    (speech_threshold : ℚ) (sample_rate : ℤ) :
    ((run_pipeline timestamp run_label input_file output_dir chunks vad
        classify transcribe speech_threshold sample_rate).handed.map
        ClipResult.candidate =
      acceptedCandidates chunks vad classify speech_threshold sample_rate
        input_file) ∧
      ((run_pipeline timestamp run_label input_file output_dir chunks vad
          classify transcribe speech_threshold sample_rate).transcribed =
        (acceptedCandidates chunks vad classify speech_threshold sample_rate
          input_file).map ClipCandidate.audio) := by
  simp only [run_pipeline]
  obtain ⟨h1, h2⟩ := processChunk_foldl_log vad classify transcribe
    speech_threshold sample_rate input_file chunks
    { writer := ClipWriter.init
        (output_dir ++ "/" ++ timestamp ++ "_" ++
          (if run_label = "" then input_file else run_label)) sample_rate
    , total_clips := 0
    , total_accepted := 0
    , whisper_rejected_count := 0
    , transcribed := []
    , handed := [] }
  constructor
  · simpa using h1
  · simpa using h2

/-- One metadata row is appended per accepted candidate: the row count
tracks `total_accepted` through the candidate fold. -/
theorem processCandidate_foldl_rows_len (classify : List ℚ → ℤ → ℚ × ℚ)
    (transcribe : List ℚ → ℤ → TranscribeResult)
    (thr : ℚ) (sr : ℤ) (cands : List ClipCandidate) :
    ∀ st : PipelineState, st.writer.rows.length = st.total_accepted →
      ((cands.foldl (processCandidate classify transcribe thr sr)
          st).writer.rows.length =
        (cands.foldl (processCandidate classify transcribe thr sr)
          st).total_accepted) := by
  induction cands with
  | nil => intro st h; exact h
  | cons c cs ih =>
    intro st h
    rw [List.foldl_cons]
    by_cases hb : acceptDecision thr (classify c.audio sr).1
        (classify c.audio sr).2 = true
    · refine ih _ ?_
      rw [processCandidate_accepted_eq classify transcribe thr sr st c hb]
      simp [write_clip, h]
    · have hb2 : acceptDecision thr (classify c.audio sr).1
          (classify c.audio sr).2 = false := by simpa using hb
      refine ih _ ?_
      rw [processCandidate_rejected_eq classify transcribe thr sr st c hb2]
      simpa using h

/-- The row count tracks `total_accepted` through the chunk fold. -/
theorem processChunk_foldl_rows_len (vad : List ℚ → ℤ → List AudioSegment)
    (classify : List ℚ → ℤ → ℚ × ℚ)
    (transcribe : List ℚ → ℤ → TranscribeResult)
    (thr : ℚ) (sr : ℤ) (source : String) (chunks : List (ℚ × List ℚ)) :
    ∀ st : PipelineState, st.writer.rows.length = st.total_accepted →
      ((chunks.foldl (processChunk vad classify transcribe thr sr source)
          st).writer.rows.length =
        (chunks.foldl (processChunk vad classify transcribe thr sr source)
          st).total_accepted) := by
  induction chunks with
  | nil => intro st h; exact h
  | cons ch chs ih =>
    intro st h
    rw [List.foldl_cons]
    refine ih _ ?_
    simp only [processChunk]
    exact processCandidate_foldl_rows_len classify transcribe thr sr
      (chunkCandidates vad sr source ch) st h

/-- In every finished run the metadata table has exactly one row per
accepted candidate. -/
theorem run_pipeline_rows_len (timestamp run_label input_file output_dir : String)
    (chunks : List (ℚ × List ℚ))
    (vad : List ℚ → ℤ → List AudioSegment)
    (classify : List ℚ → ℤ → ℚ × ℚ)
    (transcribe : List ℚ → ℤ → TranscribeResult)
    (speech_threshold : ℚ) (sample_rate : ℤ) :
    (run_pipeline timestamp run_label input_file output_dir chunks vad classify
        transcribe speech_threshold sample_rate).rows.length =
      (run_pipeline timestamp run_label input_file output_dir chunks vad classify
        transcribe speech_threshold sample_rate).total_accepted := by
  simp only [run_pipeline]
  exact processChunk_foldl_rows_len vad classify transcribe speech_threshold
    sample_rate input_file chunks _ rfl

/-- C5 (amended): a run in which zero candidates are accepted (including
one where no speech is detected at all) completes normally, accumulates no
metadata rows, and `flush_metadata` is a no-op: no metadata file is
created at all (`none`), rather than an empty one as the claim states. -/
theorem empty_run_no_metadata_file (timestamp run_label input_file output_dir : String)
    (chunks : List (ℚ × List ℚ))
    (vad : List ℚ → ℤ → List AudioSegment)
    (classify : List ℚ → ℤ → ℚ × ℚ)
    (transcribe : List ℚ → ℤ → TranscribeResult)
    (speech_threshold : ℚ) (sample_rate : ℤ)
    (h : (run_pipeline timestamp run_label input_file output_dir chunks vad
        classify transcribe speech_threshold sample_rate).total_accepted = 0) :
    (run_pipeline timestamp run_label input_file output_dir chunks vad classify
        transcribe speech_threshold sample_rate).rows = [] ∧
      (run_pipeline timestamp run_label input_file output_dir chunks vad classify
        transcribe speech_threshold sample_rate).metadataFile = none := by
  have hlen := run_pipeline_rows_len timestamp run_label input_file output_dir
    chunks vad classify transcribe speech_threshold sample_rate
  rw [h] at hlen
  have hrows : (run_pipeline timestamp run_label input_file output_dir chunks vad
      classify transcribe speech_threshold sample_rate).rows = [] :=
    List.eq_nil_of_length_eq_zero hlen
  refine ⟨hrows, ?_⟩
  simp only [run_pipeline] at hrows ⊢
  simp only [flush_metadata]
  rw [if_pos hrows]

/-- C5 witness: a run whose single candidate is rejected at classification
(speech score 0) accepts nothing, leaves no rows and writes no metadata
file. -/
theorem empty_run_no_metadata_file_witness :
    (run_pipeline "20250101_000000" "" "in.mp3" "out" [(0, [])]
        (fun _ _ => [⟨0, 10⟩]) (fun _ _ => (0, 1))
        (fun _ _ => ⟨"", none, 0⟩) (mkRat 7 20) 16000).rows = [] ∧
      (run_pipeline "20250101_000000" "" "in.mp3" "out" [(0, [])]
        (fun _ _ => [⟨0, 10⟩]) (fun _ _ => (0, 1))
        (fun _ _ => ⟨"", none, 0⟩) (mkRat 7 20) 16000).metadataFile = none :=
  empty_run_no_metadata_file "20250101_000000" "" "in.mp3" "out" [(0, [])]
    (fun _ _ => [⟨0, 10⟩]) (fun _ _ => (0, 1))
    (fun _ _ => ⟨"", none, 0⟩) (mkRat 7 20) 16000 (by decide)

/-- C5 counterexample: in that same zero-accepted run `flush_metadata`
returns without creating any file (`none`): the pipeline does not produce
an empty metadata file. -/
theorem empty_run_metadata_file_cex :
    (run_pipeline "20250101_000000" "" "in.mp3" "out" [(0, [])]
        (fun _ _ => [⟨0, 10⟩]) (fun _ _ => (0, 1))
        (fun _ _ => ⟨"", none, 0⟩) (mkRat 7 20) 16000).total_accepted = 0 ∧
      ((run_pipeline "20250101_000000" "" "in.mp3" "out" [(0, [])]
        (fun _ _ => [⟨0, 10⟩]) (fun _ _ => (0, 1))
        (fun _ _ => ⟨"", none, 0⟩) (mkRat 7 20) 16000).metadataFile).isSome
        = false := by
  constructor
  · decide
  · decide

/-- Two writer states that agree on sequence counter and metadata rows;
their clips directories may differ (the directory embeds the run
timestamp). -/
def sameCore (w1 w2 : WriterState) : Prop :=
  w1.counter = w2.counter ∧ w1.rows = w2.rows

/-- `write_clip` preserves `sameCore` when handed the same result: the
appended row and the new counter depend only on the counter and the
result, never on the clips directory. -/
theorem write_clip_sameCore (w1 w2 : WriterState) (r : ClipResult)
    (h : sameCore w1 w2) :
    sameCore (write_clip w1 r).1 (write_clip w2 r).1 := by
  obtain ⟨hc, hr⟩ := h
  constructor
  · simp [write_clip, hc]
  · simp [write_clip, hc, hr]

/-- Two pipeline states equal everywhere except possibly the writer's
clips directory (and the WAV paths derived from it). -/
def sameRun (s1 s2 : PipelineState) : Prop :=
  sameCore s1.writer s2.writer ∧
    s1.total_clips = s2.total_clips ∧
    s1.total_accepted = s2.total_accepted ∧
    s1.whisper_rejected_count = s2.whisper_rejected_count ∧
    s1.transcribed = s2.transcribed ∧
    s1.handed = s2.handed

/-- `processCandidate` preserves `sameRun`. -/
theorem processCandidate_sameRun (classify : List ℚ → ℤ → ℚ × ℚ)
    (transcribe : List ℚ → ℤ → TranscribeResult)
    (thr : ℚ) (sr : ℤ) (c : ClipCandidate) (s1 s2 : PipelineState)
    (h : sameRun s1 s2) :
    sameRun (processCandidate classify transcribe thr sr s1 c)
      (processCandidate classify transcribe thr sr s2 c) := by
  obtain ⟨hw, h1, h2, h3, h4, h5⟩ := h
  by_cases hb : acceptDecision thr (classify c.audio sr).1
      (classify c.audio sr).2 = true
  · rw [processCandidate_accepted_eq classify transcribe thr sr s1 c hb,
      processCandidate_accepted_eq classify transcribe thr sr s2 c hb]
    exact ⟨write_clip_sameCore _ _ _ hw, by rw [h1], by rw [h2], by rw [h3],
      by rw [h4], by rw [h5]⟩
  · have hb2 : acceptDecision thr (classify c.audio sr).1
        (classify c.audio sr).2 = false := by simpa using hb
    rw [processCandidate_rejected_eq classify transcribe thr sr s1 c hb2,
      processCandidate_rejected_eq classify transcribe thr sr s2 c hb2]
    exact ⟨hw, by rw [h1], h2, h3, h4, h5⟩

/-- The candidate fold preserves `sameRun`. -/
theorem processCandidate_foldl_sameRun (classify : List ℚ → ℤ → ℚ × ℚ)
    (transcribe : List ℚ → ℤ → TranscribeResult)
    (thr : ℚ) (sr : ℤ) (cands : List ClipCandidate) :
    ∀ s1 s2 : PipelineState, sameRun s1 s2 →
      sameRun (cands.foldl (processCandidate classify transcribe thr sr) s1)
        (cands.foldl (processCandidate classify transcribe thr sr) s2) := by
  induction cands with
  | nil => intro s1 s2 h; exact h
  | cons c cs ih =>
    intro s1 s2 h
    rw [List.foldl_cons, List.foldl_cons]
    exact ih _ _ (processCandidate_sameRun classify transcribe thr sr c s1 s2 h)

/-- The chunk fold preserves `sameRun`. -/
theorem processChunk_foldl_sameRun (vad : List ℚ → ℤ → List AudioSegment)
    (classify : List ℚ → ℤ → ℚ × ℚ)
    (transcribe : List ℚ → ℤ → TranscribeResult)
    (thr : ℚ) (sr : ℤ) (source : String) (chunks : List (ℚ × List ℚ)) :
    ∀ s1 s2 : PipelineState, sameRun s1 s2 →
      sameRun
        (chunks.foldl (processChunk vad classify transcribe thr sr source) s1)
        (chunks.foldl (processChunk vad classify transcribe thr sr source) s2) := by
  induction chunks with
  | nil => intro s1 s2 h; exact h
  | cons ch chs ih =>
    intro s1 s2 h
    rw [List.foldl_cons, List.foldl_cons]
    refine ih _ _ ?_
    simp only [processChunk]
    exact processCandidate_foldl_sameRun classify transcribe thr sr
      (chunkCandidates vad sr source ch) s1 s2 h

/-- C9: re-running the pipeline on the same chunk list with the same
parameters and the same (deterministic) capabilities yields identical
metadata rows — same candidates, same order, same sequence numbers — and
an identical metadata file, even though the two runs start at different
wall-clock timestamps (the timestamp only enters the output directory
name). -/
theorem pipeline_rows_deterministic (t1 t2 run_label input_file output_dir : String)
    (chunks : List (ℚ × List ℚ))
    (vad : List ℚ → ℤ → List AudioSegment)
    (classify : List ℚ → ℤ → ℚ × ℚ)
    (transcribe : List ℚ → ℤ → TranscribeResult)
    (speech_threshold : ℚ) (sample_rate : ℤ) :
    ((run_pipeline t1 run_label input_file output_dir chunks vad classify
        transcribe speech_threshold sample_rate).rows =
      (run_pipeline t2 run_label input_file output_dir chunks vad classify
        transcribe speech_threshold sample_rate).rows) ∧
      ((run_pipeline t1 run_label input_file output_dir chunks vad classify
          transcribe speech_threshold sample_rate).metadataFile =
        (run_pipeline t2 run_label input_file output_dir chunks vad classify
          transcribe speech_threshold sample_rate).metadataFile) := by
  simp only [run_pipeline]
  have h := processChunk_foldl_sameRun vad classify transcribe speech_threshold
    sample_rate input_file chunks
    { writer := ClipWriter.init
        (output_dir ++ "/" ++ t1 ++ "_" ++
          (if run_label = "" then input_file else run_label)) sample_rate
    , total_clips := 0
    , total_accepted := 0
    , whisper_rejected_count := 0
    , transcribed := []
    , handed := [] }
    { writer := ClipWriter.init
        (output_dir ++ "/" ++ t2 ++ "_" ++
          (if run_label = "" then input_file else run_label)) sample_rate
    , total_clips := 0
    , total_accepted := 0
    , whisper_rejected_count := 0
    , transcribed := []
    , handed := [] }
    ⟨⟨rfl, rfl⟩, rfl, rfl, rfl, rfl, rfl⟩
  obtain ⟨⟨hcount, hrows⟩, _⟩ := h
  refine ⟨hrows, ?_⟩
  simp only [flush_metadata]
  rw [hrows]
